import Mathlib

/-!
Verification of the dirwalk utility (OSaSP lab 01).

The repository's build (Makefile, SRC_DIR = src) compiles `src/dirwalk.c`, an
nftw()-based walker: `process_entry` classifies each visited entry from its
nftw typeflag and lstat buffer, then either prints it immediately (streaming
mode) or appends it to a growable `path_list_s` that is qsort-ed with
`compare_paths` (strcoll) and printed after the walk (sorted mode).

The repository also contains an earlier hand-rolled generation of the same
program (`part_003`): `main` processes the start path itself with
`process_entry`, then, when the start path is a directory,
`walk_directory_contents` enumerates children, joining paths with at most one
inserted '/' separator and recursing into subdirectories, pre-order.

Both generations are embedded below:
- the nftw variant as a classifier over (typeflag, stat mode) plus a fold over
  the visit sequence nftw produces (nftw itself is POSIX library code, not
  repository code; only its callback-driving contract is used: it feeds each
  visit to the callback in order and stops as soon as the callback returns a
  nonzero value);
- the hand-rolled variant as a structural recursion over an explicit
  filesystem-tree model, with C strings embedded as `List Char`.
-/

/-! ## nftw variant (src/dirwalk.c): classifier and sinks -/

/-- The nftw typeflag values that `process_entry` in src/dirwalk.c can
receive: regular visit of a non-directory (`F`), pre-order visit of a
readable directory (`D`), unreadable directory (`DNR`), symbolic link (`SL`),
dangling symbolic link (`SLN`), stat failure (`NS`), post-order directory
visit (`DP`, only produced under FTW_DEPTH, which the program does not set,
but handled by the code). -/
inductive Ftype where
  | F : Ftype
  | D : Ftype
  | DNR : Ftype
  | SL : Ftype
  | SLN : Ftype
  | NS : Ftype
  | DP : Ftype
deriving DecidableEq, Repr

/-- File type recorded in `st_mode` of the lstat buffer, as distinguished by
the `S_ISREG` / `S_ISDIR` / `S_ISLNK` macros the sources use; all remaining
POSIX file types (socket, FIFO, block device, character device) are listed
explicitly because the spec discusses them. -/
inductive StatMode where
  | regular : StatMode
  | directory : StatMode
  | symlink : StatMode
  | socket : StatMode
  | fifo : StatMode
  | blockDevice : StatMode
  | charDevice : StatMode
deriving DecidableEq, Repr

/-- The `S_ISREG` test on a stat mode. -/
def S_ISREG : StatMode → Bool
  | .regular => true
  | _ => false

/-- Option structure `options_s` of src/dirwalk.c: the four command line
flags plus `filter_active`, which main sets to true iff any of -l, -d, -f
was given. -/
structure options_s where
  show_links : Bool
  show_dirs : Bool
  show_files : Bool
  sort_output : Bool
  filter_active : Bool
deriving DecidableEq, Repr

/-- Match computation of `process_entry` (src/dirwalk.c lines 262-290):
entries with typeflag FTW_NS or FTW_DP are skipped before classification
(the callback returns 0 without processing them, so they are never emitted);
with no active filter every remaining entry matches; with an active filter
the else-if chain accepts symbolic links (FTW_SL or FTW_SLN) when -l is set,
directories (FTW_D or FTW_DNR) when -d is set, and entries with typeflag
FTW_F whose stat buffer is non-NULL and satisfies S_ISREG when -f is set.
The `sb` argument is `none` when the stat buffer pointer is NULL. -/
def process_entry_match (opts : options_s) (typeflag : Ftype) (sb : Option StatMode) : Bool :=
  if typeflag = .NS ∨ typeflag = .DP then
    false
  else if !opts.filter_active then
    true
  else if opts.show_links && (typeflag = .SL || typeflag = .SLN) then
    true
  else if opts.show_dirs && (typeflag = .D || typeflag = .DNR) then
    true
  else if opts.show_files && typeflag = .F then
    match sb with
    | some m => S_ISREG m
    | none => false
  else
    false

/-- EntryKind of the specification (section 3): the kind of a filesystem
entry whose metadata was obtained, derived from its own non-dereferenced
metadata. Symbolic links carry whether the link is dangling, which nftw
distinguishes (FTW_SL vs FTW_SLN) but the spec treats uniformly. -/
inductive EntryKind where
  | directory : EntryKind
  | regularFile : EntryKind
  | symbolicLink : Bool → EntryKind
  | unreadableDirectory : EntryKind
  | socket : EntryKind
  | fifo : EntryKind
  | blockDevice : EntryKind
  | charDevice : EntryKind
deriving DecidableEq, Repr, Fintype

/-- The nftw typeflag reported for an entry of the given kind under FTW_PHYS:
readable directories are FTW_D, unreadable ones FTW_DNR, symbolic links
FTW_SL (FTW_SLN when dangling), and every other kind — regular files,
sockets, FIFOs, devices — is reported as FTW_F. -/
def kindTypeflag : EntryKind → Ftype
  | .directory => .D
  | .regularFile => .F
  | .symbolicLink dangling => if dangling then .SLN else .SL
  | .unreadableDirectory => .DNR
  | .socket => .F
  | .fifo => .F
  | .blockDevice => .F
  | .charDevice => .F

/-- The lstat mode of an entry of the given kind. -/
def kindMode : EntryKind → StatMode
  | .directory => .directory
  | .regularFile => .regular
  | .symbolicLink _ => .symlink
  | .unreadableDirectory => .directory
  | .socket => .socket
  | .fifo => .fifo
  | .blockDevice => .blockDevice
  | .charDevice => .charDevice

/-- Modelled from the spec, section 4.1, for comparison with the code's
classifier: when `filter_active` is false the classifier matches every kind
whose metadata was obtained; when it is true it matches exactly
(SymbolicLink and wantLinks) or (Directory or Unreadable-Directory and
wantDirs) or (RegularFile and wantFiles), every other kind excluded. -/
def matches_spec (k : EntryKind) (opts : options_s) : Bool :=
  if !opts.filter_active then
    true
  else
    match k with
    | .symbolicLink _ => opts.show_links
    | .directory => opts.show_dirs
    | .unreadableDirectory => opts.show_dirs
    | .regularFile => opts.show_files
    | _ => false

/-! ### Visit sequences and the two output sinks -/

/-- One callback invocation nftw makes during the walk: the path of the
entry, its typeflag, and the lstat buffer (`none` models a NULL stat buffer
pointer). -/
structure Visit where
  path : String
  typeflag : Ftype
  sb : Option StatMode
deriving DecidableEq, Repr

/-- Whether `process_entry` classifies this visit as matching. -/
def visit_match (opts : options_s) (v : Visit) : Bool :=
  process_entry_match opts v.typeflag v.sb

/-- Streaming (non-sorted) mode of src/dirwalk.c: nftw feeds the visits in
order to `process_entry`, which prints each matching path; `budget` is the
number of printf calls that succeed before the output sink fails (writes
never fail when the budget exceeds the number of matches). When printf
reports a failure the callback returns -1, which makes nftw stop the walk at
once; the remaining, never-visited part of the sequence is returned in the
third component, and the second component is false exactly when main will
see nftw return -1 and exit with EXIT_FAILURE. -/
def run_stream (opts : options_s) : List Visit → Nat → List String × Bool × List Visit
  | [], _ => ([], true, [])
  | v :: vs, b =>
    if visit_match opts v then
      match b with
      | 0 => ([], false, vs)
      | b' + 1 =>
        let r := run_stream opts vs b'
        (v.path :: r.1, r.2.1, r.2.2)
    else
      run_stream opts vs b

/-- Collecting (sorted) mode, walk phase: `process_entry` appends each
matching path to the path list via `add_path_to_list`, in visit order.
Allocation failures are modelled separately (see `add_path_to_list`). -/
def run_collect (opts : options_s) : List Visit → List String
  | [] => []
  | v :: vs => (if visit_match opts v then [v.path] else []) ++ run_collect opts vs

/-- Sorted mode of src/dirwalk.c (main, lines 198-213): after the walk the
collected paths are sorted with qsort under the strcoll comparison
`compare_paths` and printed in that order. The comparator `le` models the
locale-resolved collation order; qsort's contract (a sorted permutation of
its input) is modelled by mergeSort. -/
def run_sorted (le : String → String → Bool) (opts : options_s) (visits : List Visit) : List String :=
  (run_collect opts visits).mergeSort le

/-! ### The collected path list (`path_list_s` and `add_path_to_list`) -/

/-- The `path_list_s` buffer of src/dirwalk.c: `slots` is the allocated
`paths` array (one cell per allocated pointer slot, `some s` when the slot
holds a successfully strdup-ed string, `none` when it holds NULL or is
uninitialized), `count` the number of stored paths. The capacity of the C
structure is the length of `slots`. -/
structure path_list_s where
  slots : List (Option String)
  count : Nat
deriving DecidableEq, Repr

/-- Allocated capacity of the list. -/
def path_list_s.capacity (l : path_list_s) : Nat := l.slots.length

/-- The strdup-and-store phase of `add_path_to_list`: the path is duplicated
into slot `count`; on success the count is incremented afterwards and 0
returned, on failure (strdup returned NULL) the NULL pointer has been written
to slot `count` but the count is left unchanged and -1 returned. -/
def strdup_store (strdupOk : Bool) (l : path_list_s) (p : String) : path_list_s × Int :=
  if strdupOk then
    (⟨l.slots.set l.count (some p), l.count + 1⟩, 0)
  else
    (⟨l.slots.set l.count none, l.count⟩, -1)

/-- `add_path_to_list` (src/dirwalk.c lines 339-372). When `count` has
reached the capacity, the new capacity is 100 for an empty list and twice the
old capacity otherwise (size_t arithmetic, hence reduced modulo 2^64); if
doubling wrapped around (new capacity not above a positive old one) the
function reports failure without touching the list, and a failed realloc
(`reallocOk = false`) likewise leaves the original list valid and unchanged.
A successful realloc extends the buffer, preserving all existing slots, after
which the strdup phase runs. `reallocOk` and `strdupOk` say whether the two
allocation calls succeed. -/
def add_path_to_list (reallocOk strdupOk : Bool) (l : path_list_s) (p : String) :
    path_list_s × Int :=
  if l.count ≥ l.capacity then
    let newCap := if l.capacity = 0 then 100 else l.capacity * 2 % 2 ^ 64
    if newCap ≤ l.capacity ∧ 0 < l.capacity then
      (l, -1)
    else if reallocOk then
      strdup_store strdupOk ⟨l.slots ++ List.replicate (newCap - l.capacity) none, l.count⟩ p
    else
      (l, -1)
  else
    strdup_store strdupOk l p

/-- Structural invariant of the collected path list: the count never exceeds
the capacity and each of the first `count` slots holds a successfully copied
string. -/
def PathListInv (l : path_list_s) : Prop :=
  l.count ≤ l.capacity ∧ ∀ i : Nat, i < l.count → (l.slots[i]?).isSome = true

instance (l : path_list_s) : Decidable (PathListInv l) := by
  unfold PathListInv
  infer_instance

/-! ## Hand-rolled variant (part_003): recursive walker over a tree model -/

/-- C strings of the hand-rolled walker, embedded as character lists. -/
abbrev CStr := List Char

mutual

/-- Filesystem node as observed by the hand-rolled walker through lstat and
opendir: a regular file, a directory (readable flag: opendir succeeds or
fails) with its readdir children (the `.` and `..` pseudo-entries, which the
walker always skips, are not modelled), a symbolic link, any other lstat-able
kind (socket, FIFO, device), or an entry whose lstat call fails. -/
inductive FSNode where
  | file : FSNode
  | dir : Bool → FSEntries → FSNode
  | symlink : FSNode
  | other : FSNode
  | statFail : FSNode

/-- Children of a directory, in readdir enumeration order, each child being a
name paired with the node found at that name. -/
inductive FSEntries where
  | nil : FSEntries
  | cons : CStr → FSNode → FSEntries → FSEntries

end

/-- Flag set of the hand-rolled walker's main: show_l, show_d, show_f and
explicit_type_filter (true iff any of -l, -d, -f was given). The sort flag
only selects when output happens and is modelled at the output step. -/
structure Cfg where
  show_l : Bool
  show_d : Bool
  show_f : Bool
  explicit : Bool
deriving DecidableEq, Repr

/-- The `S_ISLNK` test on a node. -/
def FSNode.isLnk : FSNode → Bool
  | .symlink => true
  | _ => false

/-- The `S_ISDIR` test on a node (readable or not). -/
def FSNode.isDir : FSNode → Bool
  | .dir _ _ => true
  | _ => false

/-- The `S_ISREG` test on a node. -/
def FSNode.isReg : FSNode → Bool
  | .file => true
  | _ => false

/-- `process_entry` of part_003 (lines 290-332), deciding `should_output`:
when lstat fails the entry is not output (the function returns 0 after
logging); with no explicit type filter every lstat-able entry is output; with
an explicit filter the else-if chain accepts symbolic links under -l,
directories under -d and regular files under -f, and every other kind is
ignored. -/
def process_entry_p3 (cfg : Cfg) (node : FSNode) : Bool :=
  match node with
  | .statFail => false
  | n =>
    if !cfg.explicit then
      true
    else if n.isLnk && cfg.show_l then
      true
    else if n.isDir && cfg.show_d then
      true
    else if n.isReg && cfg.show_f then
      true
    else
      false

/-- Path join of `walk_directory_contents` (part_003 lines 367-381): the
child path is dir_path, then a '/' separator exactly when dir_path is
non-empty and does not already end in '/', then the child name. -/
def joinP3 (dirPath name : CStr) : CStr :=
  if dirPath ≠ [] ∧ dirPath.getLast? ≠ some '/' then
    dirPath ++ '/' :: name
  else
    dirPath ++ name

mutual

/-- Emission sequence of the subtree rooted at `path`/`node`: `process_entry`
emits the node's own path first when it matches, then, when the node is a
directory, `walk_directory_contents` runs over its children — which emits
nothing when opendir fails (unreadable directory, zero further children). -/
def walkNode (path : CStr) (node : FSNode) (cfg : Cfg) : List CStr :=
  (if process_entry_p3 cfg node then [path] else []) ++
    (match node with
     | .dir true children => walkEntries path children cfg
     | _ => [])

/-- `walk_directory_contents` (part_003 lines 350-417): for each readdir
child in order, build the joined child path, process the child entry, and
recurse when the child is a directory; entries whose lstat fails contribute
nothing and are not descended into. -/
def walkEntries (dirPath : CStr) (children : FSEntries) (cfg : Cfg) : List CStr :=
  match children with
  | .nil => []
  | .cons name child rest =>
    walkNode (joinP3 dirPath name) child cfg ++ walkEntries dirPath rest cfg

end

/-- The core logic of part_003's main (lines 141-177): the start path itself
is processed first, exactly like any other entry; then main lstats the start
path — when that fails (`fs = none`, so the initial `process_entry` also saw
the lstat failure and emitted nothing) the program exits with EXIT_FAILURE
having produced no output, and otherwise it descends into the start path's
children when it is a directory and exits with EXIT_SUCCESS. The first
component is the output sequence (streaming order), the second is true for a
success exit status. -/
def mainRunP3 (start : CStr) (fs : Option FSNode) (cfg : Cfg) : List CStr × Bool :=
  match fs with
  | none => ([], false)
  | some node => (walkNode start node cfg, true)

mutual

/-- All positions of the tree the walker can reach: the root's own
path/node pair, followed by the reachable positions inside its children when
the root is a readable directory (an unreadable directory's children are
behind a failing opendir and are never reached). -/
def positions (path : CStr) (node : FSNode) : List (CStr × FSNode) :=
  (path, node) ::
    (match node with
     | .dir true children => entryPositions path children
     | _ => [])

/-- Reachable positions contributed by a child list. -/
def entryPositions (dirPath : CStr) (children : FSEntries) : List (CStr × FSNode) :=
  match children with
  | .nil => []
  | .cons name child rest =>
    positions (joinP3 dirPath name) child ++ entryPositions dirPath rest

end

/-- Conclusion of one `add_path_to_list` call on an initial list `l` with
path `p`, result list `l'` and return code `r`: the structural invariant
holds afterwards; on failure (`r ≠ 0`) the count and every previously stored
slot are unchanged; on success the count grew by one, the new slot holds the
copied path, and the previously stored slots are unchanged. -/
def addResultSpec (p : String) (l l' : path_list_s) (r : Int) : Prop :=
  PathListInv l' ∧
  (r ≠ 0 → l'.count = l.count ∧ ∀ i : Nat, i < l.count → l'.slots[i]? = l.slots[i]?) ∧
  (r = 0 → l'.count = l.count + 1 ∧ l'.slots[l.count]? = some (some p) ∧
    ∀ i : Nat, i < l.count → l'.slots[i]? = l.slots[i]?)

/-- Length comparison on strings: a concrete total and transitive
comparator used to instantiate the collation parameter in witnesses. -/
def lenLe (a b : String) : Bool := a.length ≤ b.length

/-! ## Theorems -/

/-- C1: for every entry kind and every filter configuration, the classifier
of src/dirwalk.c (`process_entry`, lines 262-290) matches exactly as the
specification states: with no explicit filter active it matches every kind
whose metadata was obtained — sockets, FIFOs and devices included — and with
any explicit filter active it matches an entry iff it is a symbolic link and
-l is set, a directory (readable or unreadable) and -d is set, or a regular
file and -f is set, every other kind being excluded. Stated as: on the
typeflag and stat mode nftw reports for each kind, the code's match
computation coincides with the specification's classifier for all 2^5 flag
combinations. -/
theorem C1_classifier_matches_spec :
    ∀ (l d f s fa : Bool) (k : EntryKind),
      process_entry_match ⟨l, d, f, s, fa⟩ (kindTypeflag k) (some (kindMode k)) =
        matches_spec k ⟨l, d, f, s, fa⟩ := by
  decide

/-- C2: the start path is classified and is a candidate for emission exactly
like a discovered descendant (part_003, main lines 141-152): when the start
path is a regular file the program emits exactly that one path if it matches
the active filter and nothing else (no descent is attempted: the output
contains no other path), exits successfully; when the start path is an empty
directory — readable or not — the output is exactly its own entry when it
matches, again with a success exit status. -/
theorem C2_start_path_is_candidate (start : CStr) (cfg : Cfg) :
    mainRunP3 start (some .file) cfg =
      ((if process_entry_p3 cfg .file then [start] else []), true) ∧
    ∀ b : Bool, mainRunP3 start (some (.dir b .nil)) cfg =
      ((if process_entry_p3 cfg (.dir b .nil) then [start] else []), true) := by
  refine ⟨?_, ?_⟩
  · simp [mainRunP3, walkNode]
  · intro b
    cases b <;> simp [mainRunP3, walkNode, walkEntries]

/-- C3: a directory entry whose enumeration fails is isolated (part_003,
walk_directory_contents lines 355-359 and main lines 141-177): an unreadable
directory's subtree emission is exactly its own entry when it matches (its
children are treated as absent); inside a child list, an unreadable-directory
child contributes only its own matching entry and the walk continues with the
remaining siblings; and whenever the start path's metadata was obtained the
process exit status is success, regardless of enumeration failures below. -/
theorem C3_enumeration_failure_isolated (cfg : Cfg) :
    (∀ (p : CStr) (cs : FSEntries),
      walkNode p (.dir false cs) cfg =
        if process_entry_p3 cfg (.dir false cs) then [p] else []) ∧
    (∀ (p name : CStr) (cs rest : FSEntries),
      walkEntries p (.cons name (.dir false cs) rest) cfg =
        (if process_entry_p3 cfg (.dir false cs) then [joinP3 p name] else []) ++
          walkEntries p rest cfg) ∧
    (∀ (start : CStr) (node : FSNode), (mainRunP3 start (some node) cfg).2 = true) := by
  refine ⟨?_, ?_, ?_⟩
  · intro p cs
    simp [walkNode]
  · intro p name cs rest
    simp [walkEntries, walkNode]
  · intro start node
    rfl

/-- C4: when the very first metadata lookup on the start path fails, the
program produces no output at all and terminates with a failure exit status
(part_003, main lines 153-165: the initial `process_entry` call saw the same
lstat failure and emitted nothing, and main returns EXIT_FAILURE; the
program's only productions before that point are diagnostics on stderr). -/
theorem C4_start_path_error_fatal (start : CStr) (cfg : Cfg) :
    mainRunP3 start none cfg = ([], false) := rfl

/-- Specification of the strdup-and-store phase alone, assuming the buffer
already has room for the new element. -/
theorem strdup_store_spec (strdupOk : Bool) (l : path_list_s) (p : String)
    (hlt : l.count < l.capacity)
    (hinv : ∀ i : Nat, i < l.count → (l.slots[i]?).isSome = true) :
    addResultSpec p l (strdup_store strdupOk l p).1 (strdup_store strdupOk l p).2 := by
  have hlen : l.count < l.slots.length := hlt
  cases strdupOk with
  | true =>
    have hred : strdup_store true l p =
        (⟨l.slots.set l.count (some p), l.count + 1⟩, 0) := rfl
    rw [hred]
    refine ⟨⟨?_, ?_⟩, ?_, ?_⟩
    · simpa [path_list_s.capacity] using hlt
    · intro i hi
      rcases Nat.lt_succ_iff_lt_or_eq.mp hi with hi' | hi'
      · rw [List.getElem?_set_ne (Nat.ne_of_gt hi')]
        exact hinv i hi'
      · subst hi'
        rw [List.getElem?_set_self hlen]
        rfl
    · intro h
      exact absurd rfl h
    · intro _
      exact ⟨rfl, List.getElem?_set_self hlen,
        fun i hi => List.getElem?_set_ne (Nat.ne_of_gt hi)⟩
  | false =>
    have hred : strdup_store false l p =
        (⟨l.slots.set l.count none, l.count⟩, -1) := rfl
    rw [hred]
    refine ⟨⟨?_, ?_⟩, ?_, ?_⟩
    · simpa [path_list_s.capacity] using Nat.le_of_lt hlt
    · intro i hi
      rw [List.getElem?_set_ne (Nat.ne_of_gt hi)]
      exact hinv i hi
    · intro _
      exact ⟨rfl, fun i hi => List.getElem?_set_ne (Nat.ne_of_gt hi)⟩
    · intro h
      simp at h

/-- The add-result specification transfers backwards across a
count-and-prefix preserving buffer change (a successful realloc). -/
theorem addResultSpec_transfer {p : String} {l l' l'' : path_list_s} {r : Int}
    (hc : l'.count = l.count)
    (hs : ∀ i : Nat, i < l.count → l'.slots[i]? = l.slots[i]?)
    (h : addResultSpec p l' l'' r) : addResultSpec p l l'' r := by
  obtain ⟨hinv, hfail, hok⟩ := h
  refine ⟨hinv, ?_, ?_⟩
  · intro hr
    obtain ⟨h1, h2⟩ := hfail hr
    refine ⟨h1.trans hc, fun i hi => ?_⟩
    rw [h2 i (by rw [hc]; exact hi)]
    exact hs i hi
  · intro hr
    obtain ⟨h1, h2, h3⟩ := hok hr
    refine ⟨by rw [h1, hc], by rw [← hc]; exact h2, fun i hi => ?_⟩
    rw [h3 i (by rw [hc]; exact hi)]
    exact hs i hi

/-- C10: the collected path list preserves its structural invariant across
every `add_path_to_list` call (src/dirwalk.c lines 339-372): the count never
exceeds the capacity and the first count slots always hold successfully
copied path strings; when the append fails — capacity-overflow guard, failed
realloc, or failed strdup — the count and all previously stored slots are
observably unchanged, and when it succeeds exactly the one new path has been
appended. Quantified over both allocation outcomes. -/
theorem C10_add_path_to_list_invariant (reallocOk strdupOk : Bool) (l : path_list_s)
    (p : String) (h : PathListInv l) :
    addResultSpec p l (add_path_to_list reallocOk strdupOk l p).1
      (add_path_to_list reallocOk strdupOk l p).2 := by
  obtain ⟨hle, hsome⟩ := h
  by_cases hge : l.count ≥ l.capacity
  · have hcnt : l.count = l.capacity := Nat.le_antisymm hle hge
    by_cases hguard :
        (if l.capacity = 0 then 100 else l.capacity * 2 % 2 ^ 64) ≤ l.capacity ∧
          0 < l.capacity
    · have hred : add_path_to_list reallocOk strdupOk l p = (l, -1) := by
        simp only [add_path_to_list]
        rw [if_pos hge, if_pos hguard]
      rw [hred]
      exact ⟨⟨hle, hsome⟩, fun _ => ⟨rfl, fun i _ => rfl⟩, fun h0 => by simp at h0⟩
    · have hcaplt : l.capacity < (if l.capacity = 0 then 100 else l.capacity * 2 % 2 ^ 64) := by
        rcases Nat.eq_zero_or_pos l.capacity with hz | hpos
        · rw [if_pos hz, hz]
          exact Nat.succ_le_succ (Nat.zero_le 99)
        · have hnle := (not_and.mp hguard)
          exact Nat.lt_of_not_le (fun hcontra => hnle hcontra hpos)
      cases reallocOk with
      | false =>
        have hred : add_path_to_list false strdupOk l p = (l, -1) := by
          simp only [add_path_to_list]
          rw [if_pos hge, if_neg hguard, if_neg (by simp)]
        rw [hred]
        exact ⟨⟨hle, hsome⟩, fun _ => ⟨rfl, fun i _ => rfl⟩, fun h0 => by simp at h0⟩
      | true =>
        have hred : add_path_to_list true strdupOk l p =
            strdup_store strdupOk
              ⟨l.slots ++
                List.replicate
                  ((if l.capacity = 0 then 100 else l.capacity * 2 % 2 ^ 64) - l.capacity)
                  none, l.count⟩ p := by
          simp only [add_path_to_list]
          rw [if_pos hge, if_neg hguard, if_pos trivial]
        rw [hred]
        revert hcaplt
        generalize (if l.capacity = 0 then 100 else l.capacity * 2 % 2 ^ 64) = N
        intro hcaplt
        have hlen : l.slots.length = l.capacity := rfl
        have hpres : ∀ i : Nat, i < l.count →
            (l.slots ++ List.replicate (N - l.capacity) none)[i]? = l.slots[i]? := by
          intro i hi
          rw [List.getElem?_append,
            if_pos (show i < l.slots.length from lt_of_lt_of_le hi hle)]
        have hlt' : l.count < (l.slots ++ List.replicate (N - l.capacity) none).length := by
          rw [List.length_append, List.length_replicate]
          omega
        have hspec := strdup_store_spec strdupOk
          ⟨l.slots ++ List.replicate (N - l.capacity) none, l.count⟩ p hlt'
          (fun i hi => by rw [hpres i hi]; exact hsome i hi)
        exact @addResultSpec_transfer p l
          ⟨l.slots ++ List.replicate (N - l.capacity) none, l.count⟩ _ _ rfl hpres hspec
  · have hlt : l.count < l.capacity := Nat.lt_of_not_le hge
    have hred : add_path_to_list reallocOk strdupOk l p = strdup_store strdupOk l p := by
      simp only [add_path_to_list]
      rw [if_neg hge]
    rw [hred]
    exact strdup_store_spec strdupOk l p hlt hsome

/-- C10 witness: the empty list satisfies the invariant and a concrete
successful append on it satisfies the add-result specification. -/
theorem C10_witness :
    PathListInv ⟨[], 0⟩ ∧
      addResultSpec "a" ⟨[], 0⟩ (add_path_to_list true true ⟨[], 0⟩ "a").1
        (add_path_to_list true true ⟨[], 0⟩ "a").2 :=
  ⟨⟨Nat.le_refl 0, fun i hi => absurd hi (Nat.not_lt_zero i)⟩,
    C10_add_path_to_list_invariant true true ⟨[], 0⟩ "a"
      ⟨Nat.le_refl 0, fun i hi => absurd hi (Nat.not_lt_zero i)⟩⟩

/-- C5: in streaming (non-sorted) mode a write failure on the output sink is
fatal (src/dirwalk.c process_entry lines 304-315 and main lines 184-192):
when the sink fails after `b` successful writes and more than `b` visits
match, the walk splits at the visit whose write fails — everything already
written (the first `b` matching paths) stands, the program emits nothing
further, the remaining visits after the failing one are never processed, and
the run reports failure, which main turns into EXIT_FAILURE. -/
theorem C5_stream_write_failure_fatal (opts : options_s) (visits : List Visit) (b : Nat)
    (h : b < ((visits.filter (visit_match opts)).map Visit.path).length) :
    ∃ pre v post,
      visits = pre ++ v :: post ∧
      visit_match opts v = true ∧
      (pre.filter (visit_match opts)).length = b ∧
      run_stream opts visits b =
        (((visits.filter (visit_match opts)).map Visit.path).take b, false, post) := by
  induction visits generalizing b with
  | nil => simp at h
  | cons v vs ih =>
    by_cases hm : visit_match opts v = true
    · cases b with
      | zero =>
        refine ⟨[], v, vs, rfl, hm, rfl, ?_⟩
        simp [run_stream, hm]
      | succ b' =>
        have h' : b' < ((vs.filter (visit_match opts)).map Visit.path).length := by
          simp only [List.filter_cons, hm, if_pos trivial, List.map_cons,
            List.length_cons] at h
          omega
        obtain ⟨pre, w, post, hsplit, hw, hlen, hrun⟩ := ih b' h'
        refine ⟨v :: pre, w, post, by rw [hsplit]; rfl, hw, ?_, ?_⟩
        · simp [List.filter_cons, hm, hlen]
        · simp [run_stream, hm, hrun, List.filter_cons]
    · have hm' : visit_match opts v = false := by
        simpa using hm
      have h' : b < ((vs.filter (visit_match opts)).map Visit.path).length := by
        simpa [List.filter_cons, hm'] using h
      obtain ⟨pre, w, post, hsplit, hw, hlen, hrun⟩ := ih b h'
      refine ⟨v :: pre, w, post, by rw [hsplit]; rfl, hw, ?_, ?_⟩
      · simp [List.filter_cons, hm', hlen]
      · simp [run_stream, hm', hrun, List.filter_cons]

/-- C5 witness: with no filter active and two matching visits, a sink that
fails on the second write leaves exactly the first path emitted, a failure
result, and the split promised by the theorem. -/
theorem C5_witness :
    1 < ((([⟨"a", .F, some .regular⟩, ⟨"b", .D, some .directory⟩] :
          List Visit).filter
            (visit_match ⟨false, false, false, false, false⟩)).map Visit.path).length ∧
    ∃ pre v post,
      ([⟨"a", .F, some .regular⟩, ⟨"b", .D, some .directory⟩] : List Visit) =
        pre ++ v :: post ∧
      visit_match ⟨false, false, false, false, false⟩ v = true ∧
      (pre.filter (visit_match ⟨false, false, false, false, false⟩)).length = 1 ∧
      run_stream ⟨false, false, false, false, false⟩
          [⟨"a", .F, some .regular⟩, ⟨"b", .D, some .directory⟩] 1 =
        (((([⟨"a", .F, some .regular⟩, ⟨"b", .D, some .directory⟩] :
            List Visit).filter
              (visit_match ⟨false, false, false, false, false⟩)).map Visit.path).take 1,
          false, post) :=
  ⟨by decide,
    C5_stream_write_failure_fatal ⟨false, false, false, false, false⟩
      [⟨"a", .F, some .regular⟩, ⟨"b", .D, some .directory⟩] 1 (by decide)⟩

/-- Auxiliary: with a budget at least the number of matching visits, the
streaming run prints every matching path in visit order, succeeds, and
consumes the whole visit sequence. -/
theorem run_stream_enough (opts : options_s) (visits : List Visit) (b : Nat)
    (h : ((visits.filter (visit_match opts)).map Visit.path).length ≤ b) :
    run_stream opts visits b =
      ((visits.filter (visit_match opts)).map Visit.path, true, []) := by
  induction visits generalizing b with
  | nil => simp [run_stream]
  | cons v vs ih =>
    by_cases hm : visit_match opts v = true
    · cases b with
      | zero =>
        simp [List.filter_cons, hm] at h
      | succ b' =>
        have h' : ((vs.filter (visit_match opts)).map Visit.path).length ≤ b' := by
          simp only [List.filter_cons, hm, if_pos trivial, List.map_cons,
            List.length_cons] at h
          omega
        simp [run_stream, hm, ih b' h', List.filter_cons]
    · have hm' : visit_match opts v = false := by simpa using hm
      have h' : ((vs.filter (visit_match opts)).map Visit.path).length ≤ b := by
        simpa [List.filter_cons, hm'] using h
      simp [run_stream, hm', ih b h', List.filter_cons]

/-- Auxiliary: the collecting sink gathers exactly the matching paths in
visit order — the same sequence streaming mode prints. -/
theorem run_collect_eq (opts : options_s) (visits : List Visit) :
    run_collect opts visits = (visits.filter (visit_match opts)).map Visit.path := by
  induction visits with
  | nil => rfl
  | cons v vs ih =>
    by_cases hm : visit_match opts v = true
    · simp [run_collect, List.filter_cons, hm, ih]
    · have hm' : visit_match opts v = false := by simpa using hm
      simp [run_collect, List.filter_cons, hm', ih]

/-- C6: for every visit sequence and filter configuration, sorted-mode
output is a permutation of unsorted-mode output (both modes classify with
the same `process_entry` logic, so they act on the same multiset of matching
paths; src/dirwalk.c main lines 198-213), and the sorted-mode output
sequence is monotonically non-decreasing under the active collation order —
stated for an arbitrary transitive and total comparison `le`, which models
whatever collation strcoll resolves at startup. The unsorted run is taken
with a budget large enough that the sink never fails. -/
theorem C6_sorted_is_sorted_permutation (le : String → String → Bool)
    (htrans : ∀ a b c, le a b = true → le b c = true → le a c = true)
    (htot : ∀ a b, (le a b || le b a) = true)
    (opts : options_s) (visits : List Visit) (b : Nat)
    (hb : ((visits.filter (visit_match opts)).map Visit.path).length ≤ b) :
    (run_sorted le opts visits).Perm (run_stream opts visits b).1 ∧
    (run_sorted le opts visits).Pairwise (fun a c => le a c = true) := by
  constructor
  · rw [run_stream_enough opts visits b hb]
    simp only [run_sorted, run_collect_eq]
    exact List.mergeSort_perm _ le
  · simp only [run_sorted]
    exact List.sorted_mergeSort htrans htot _

/-- C6 witness: instantiating the collation with the length comparator on a
concrete two-visit sequence, the hypotheses hold and sorted-mode output is a
sorted permutation of unsorted-mode output. -/
theorem C6_witness :
    (∀ a b c : String, lenLe a b = true → lenLe b c = true → lenLe a c = true) ∧
    (∀ a b : String, (lenLe a b || lenLe b a) = true) ∧
    ((([⟨"bb", .F, some .regular⟩, ⟨"a", .D, some .directory⟩] : List Visit).filter
        (visit_match ⟨false, false, false, true, false⟩)).map Visit.path).length ≤ 2 ∧
    ((run_sorted lenLe ⟨false, false, false, true, false⟩
        [⟨"bb", .F, some .regular⟩, ⟨"a", .D, some .directory⟩]).Perm
      (run_stream ⟨false, false, false, true, false⟩
        [⟨"bb", .F, some .regular⟩, ⟨"a", .D, some .directory⟩] 2).1 ∧
    (run_sorted lenLe ⟨false, false, false, true, false⟩
        [⟨"bb", .F, some .regular⟩, ⟨"a", .D, some .directory⟩]).Pairwise
      (fun a c => lenLe a c = true)) := by
  have htrans : ∀ a b c : String, lenLe a b = true → lenLe b c = true → lenLe a c = true := by
    intro a b c hab hbc
    simp only [lenLe, decide_eq_true_eq] at *
    exact Nat.le_trans hab hbc
  have htot : ∀ a b : String, (lenLe a b || lenLe b a) = true := by
    intro a b
    simp [lenLe, Nat.le_total]
  exact ⟨htrans, htot, by decide,
    C6_sorted_is_sorted_permutation lenLe htrans htot ⟨false, false, false, true, false⟩
      [⟨"bb", .F, some .regular⟩, ⟨"a", .D, some .directory⟩] 2 (by decide)⟩

/-- Unfolding equation for `walkNode` valid for every node shape. -/
theorem walkNode_unfold (path : CStr) (node : FSNode) (cfg : Cfg) :
    walkNode path node cfg =
      (if process_entry_p3 cfg node then [path] else []) ++
        (match node with
         | .dir true children => walkEntries path children cfg
         | _ => []) := by
  cases node with
  | dir b cs =>
    cases b with
    | true => rw [walkNode]
    | false =>
      rw [walkNode]
      intro children hcontra
      simp at hcontra
  | file =>
    rw [walkNode]
    intro children hcontra
    simp at hcontra
  | symlink =>
    rw [walkNode]
    intro children hcontra
    simp at hcontra
  | other =>
    rw [walkNode]
    intro children hcontra
    simp at hcontra
  | statFail =>
    rw [walkNode]
    intro children hcontra
    simp at hcontra

/-- Unfolding equation for `positions` valid for every node shape. -/
theorem positions_unfold (path : CStr) (node : FSNode) :
    positions path node =
      (path, node) ::
        (match node with
         | .dir true children => entryPositions path children
         | _ => []) := by
  cases node with
  | dir b cs =>
    cases b with
    | true => rw [positions]
    | false =>
      rw [positions]
      intro children hcontra
      simp at hcontra
  | file =>
    rw [positions]
    intro children hcontra
    simp at hcontra
  | symlink =>
    rw [positions]
    intro children hcontra
    simp at hcontra
  | other =>
    rw [positions]
    intro children hcontra
    simp at hcontra
  | statFail =>
    rw [positions]
    intro children hcontra
    simp at hcontra

mutual

/-- The emission of any reachable subtree occurs contiguously inside the
emission of the whole tree. -/
theorem walk_contig (cfg : Cfg) (q : CStr) (s : FSNode) (p : CStr) (t : FSNode)
    (h : (q, s) ∈ positions p t) :
    ∃ pre post, walkNode p t cfg = pre ++ walkNode q s cfg ++ post := by
  rw [positions_unfold] at h
  rcases List.mem_cons.mp h with heq | htail
  · have hq : q = p := congrArg Prod.fst heq
    have hs : s = t := congrArg Prod.snd heq
    subst hq hs
    exact ⟨[], [], by simp⟩
  · cases t with
    | dir b cs =>
      cases b with
      | true =>
        obtain ⟨pre, post, heq⟩ := entries_contig cfg q s p cs htail
        refine ⟨(if process_entry_p3 cfg (.dir true cs) then [p] else []) ++ pre, post, ?_⟩
        rw [walkNode, heq]
        simp
      | false => simp at htail
    | file => simp at htail
    | symlink => simp at htail
    | other => simp at htail
    | statFail => simp at htail

/-- The emission of any subtree reachable through a child list occurs
contiguously inside the child list's emission. -/
theorem entries_contig (cfg : Cfg) (q : CStr) (s : FSNode) (p : CStr) (es : FSEntries)
    (h : (q, s) ∈ entryPositions p es) :
    ∃ pre post, walkEntries p es cfg = pre ++ walkNode q s cfg ++ post := by
  cases es with
  | nil => simp [entryPositions] at h
  | cons name child rest =>
    rw [entryPositions] at h
    rcases List.mem_append.mp h with h1 | h2
    · obtain ⟨pre, post, heq⟩ := walk_contig cfg q s (joinP3 p name) child h1
      refine ⟨pre, post ++ walkEntries p rest cfg, ?_⟩
      rw [walkEntries, heq]
      simp
    · obtain ⟨pre, post, heq⟩ := entries_contig cfg q s p rest h2
      refine ⟨walkNode (joinP3 p name) child cfg ++ pre, post, ?_⟩
      rw [walkEntries, heq]
      simp

end

/-- C7: emission is pre-order (part_003, walk_directory_contents lines
390-398: each entry is processed before the recursion into it). For every
directory reachable in the walk that matches the filter, the full output
decomposes so that the directory's own path is emitted first, immediately
followed by the emissions of its children's subtrees (`rest`), with
everything emitted later (`post`) coming after — so a matching directory's
path is never emitted after any of its descendants' paths. -/
theorem C7_preorder_emission (cfg : Cfg) (p : CStr) (t : FSNode) (q : CStr)
    (b : Bool) (cs : FSEntries)
    (hpos : (q, FSNode.dir b cs) ∈ positions p t)
    (hmatch : process_entry_p3 cfg (.dir b cs) = true) :
    ∃ pre rest post,
      walkNode p t cfg = pre ++ q :: (rest ++ post) ∧
      q :: rest = walkNode q (.dir b cs) cfg := by
  obtain ⟨pre, post, heq⟩ := walk_contig cfg q (.dir b cs) p t hpos
  cases b with
  | true =>
    have hw : walkNode q (.dir true cs) cfg = q :: walkEntries q cs cfg := by
      rw [walkNode_unfold, hmatch]
      simp
    refine ⟨pre, walkEntries q cs cfg, post, ?_, hw.symm⟩
    rw [heq, hw]
    simp
  | false =>
    have hw : walkNode q (.dir false cs) cfg = q :: [] := by
      rw [walkNode_unfold, hmatch]
      simp
    refine ⟨pre, [], post, ?_, hw.symm⟩
    rw [heq, hw]
    simp

/-- C7 witness: in a concrete tree with a matching subdirectory, the
decomposition promised by the theorem holds at that subdirectory. -/
theorem C7_witness :
    ((joinP3 ['a'] ['c'], FSNode.dir true .nil) ∈
      positions ['a'] (.dir true (.cons ['c'] (.dir true .nil) .nil))) ∧
    process_entry_p3 ⟨false, true, false, true⟩ (.dir true .nil) = true ∧
    ∃ pre rest post,
      walkNode ['a'] (.dir true (.cons ['c'] (.dir true .nil) .nil))
          ⟨false, true, false, true⟩ =
        pre ++ joinP3 ['a'] ['c'] :: (rest ++ post) ∧
      joinP3 ['a'] ['c'] :: rest =
        walkNode (joinP3 ['a'] ['c']) (.dir true .nil) ⟨false, true, false, true⟩ := by
  have hmem : (joinP3 ['a'] ['c'], FSNode.dir true .nil) ∈
      positions ['a'] (.dir true (.cons ['c'] (.dir true .nil) .nil)) := by
    rw [positions_unfold]
    refine List.mem_cons_of_mem _ ?_
    show _ ∈ entryPositions _ _
    rw [entryPositions, positions_unfold]
    simp
  have hmatch : process_entry_p3 ⟨false, true, false, true⟩ (.dir true .nil) = true := rfl
  exact ⟨hmem, hmatch,
    C7_preorder_emission ⟨false, true, false, true⟩ ['a']
      (.dir true (.cons ['c'] (.dir true .nil) .nil)) (joinP3 ['a'] ['c']) true .nil
      hmem hmatch⟩

/-- Any entry matched under some configuration is matched under the default
(no explicit filter) configuration, which accepts every lstat-able entry. -/
theorem pe_default_of_pe (cfg : Cfg) (t : FSNode) (h : process_entry_p3 cfg t = true) :
    process_entry_p3 ⟨true, true, true, false⟩ t = true := by
  cases t <;> first
    | rfl
    | simp [process_entry_p3] at h

mutual

/-- The emission under any configuration is a sublist of the emission under
the default (no explicit filter) configuration: both walks visit the same
nodes in the same order, and the default match accepts whatever any other
configuration accepts. -/
theorem walkNode_sublist_default (cfg : Cfg) (p : CStr) (t : FSNode) :
    List.Sublist (walkNode p t cfg) (walkNode p t ⟨true, true, true, false⟩) := by
  rw [walkNode_unfold, walkNode_unfold]
  refine List.Sublist.append ?_ ?_
  · by_cases h : process_entry_p3 cfg t = true
    · rw [h, pe_default_of_pe cfg t h]
    · have h' : process_entry_p3 cfg t = false := by simpa using h
      rw [h']
      simp
  · cases t with
    | dir b cs =>
      cases b with
      | true => exact walkEntries_sublist_default cfg p cs
      | false => exact List.Sublist.refl _
    | file => exact List.Sublist.refl _
    | symlink => exact List.Sublist.refl _
    | other => exact List.Sublist.refl _
    | statFail => exact List.Sublist.refl _

/-- Child-list version of `walkNode_sublist_default`. -/
theorem walkEntries_sublist_default (cfg : Cfg) (p : CStr) (es : FSEntries) :
    List.Sublist (walkEntries p es cfg) (walkEntries p es ⟨true, true, true, false⟩) := by
  cases es with
  | nil => exact List.Sublist.refl _
  | cons name child rest =>
    rw [walkEntries, walkEntries]
    exact List.Sublist.append (walkNode_sublist_default cfg _ child)
      (walkEntries_sublist_default cfg p rest)

end

/-- C8 counterexample: the claimed strictness fails. On a tree that is a
single regular file with the files-only filter, the default configuration
and the filtered configuration emit exactly the same single path, so the
default output is not a strict superset of the filtered output. -/
theorem C8_counterexample :
    ¬ ((∀ x ∈ walkNode ['a'] .file ⟨false, false, true, true⟩,
          x ∈ walkNode ['a'] .file ⟨true, true, true, false⟩) ∧
        ∃ y ∈ walkNode ['a'] .file ⟨true, true, true, false⟩,
          y ∉ walkNode ['a'] .file ⟨false, false, true, true⟩) := by
  have h1 : walkNode ['a'] FSNode.file ⟨false, false, true, true⟩ = [['a']] := by
    rw [walkNode_unfold]
    decide
  have h2 : walkNode ['a'] FSNode.file ⟨true, true, true, false⟩ = [['a']] := by
    rw [walkNode_unfold]
    decide
  rintro ⟨-, y, hy, hny⟩
  rw [h2] at hy
  rw [h1] at hny
  exact hny hy

/-- C8 (amended): for every tree, the paths emitted under the default
configuration (no explicit type filter) form a superset — as a sublist, and
hence as a set — of the paths emitted under any explicit-filter
configuration on the same tree; the inclusion need not be strict (it is an
equality, for example, when every visited entry matches the filter). -/
theorem C8_default_superset (p : CStr) (t : FSNode) (l d f : Bool) :
    List.Sublist (walkNode p t ⟨l, d, f, true⟩) (walkNode p t ⟨true, true, true, false⟩) ∧
    ∀ x ∈ walkNode p t ⟨l, d, f, true⟩, x ∈ walkNode p t ⟨true, true, true, false⟩ :=
  ⟨walkNode_sublist_default ⟨l, d, f, true⟩ p t,
    fun _ hx => (walkNode_sublist_default ⟨l, d, f, true⟩ p t).subset hx⟩

/-- C8 witness: the amended superset statement instantiated at a concrete
tree and filter. -/
theorem C8_witness :
    List.Sublist (walkNode ['a'] .file ⟨false, false, true, true⟩)
      (walkNode ['a'] .file ⟨true, true, true, false⟩) ∧
    ∀ x ∈ walkNode ['a'] .file ⟨false, false, true, true⟩,
      x ∈ walkNode ['a'] .file ⟨true, true, true, false⟩ :=
  C8_default_superset ['a'] .file false false true

/-- Decomposition of the join: for a non-empty directory path, the joined
child path is some stem followed by exactly one '/' separator and then the
child name, where the stem is the directory path itself (separator inserted)
or the directory path minus its trailing '/' (separator not duplicated). -/
theorem joinP3_one_separator (dirPath name : CStr) (h : dirPath ≠ []) :
    ∃ d, joinP3 dirPath name = d ++ '/' :: name ∧ (dirPath = d ∨ dirPath = d ++ ['/']) := by
  by_cases hl : dirPath.getLast? = some '/'
  · have hg : dirPath.getLast h = '/' := by
      have hq := List.getLast?_eq_getLast dirPath h
      rw [hq] at hl
      exact Option.some.inj hl
    have hdl : dirPath.dropLast ++ ['/'] = dirPath := by
      rw [← hg]
      exact List.dropLast_append_getLast h
    refine ⟨dirPath.dropLast, ?_, Or.inr hdl.symm⟩
    rw [joinP3, if_neg (by simp [hl])]
    rw [← hdl]
    simp
  · refine ⟨dirPath, ?_, Or.inl rfl⟩
    rw [joinP3, if_pos ⟨h, hl⟩]

/-- The join always extends the directory path on the left. -/
theorem joinP3_ext (dirPath name : CStr) : dirPath <+: joinP3 dirPath name := by
  rw [joinP3]
  by_cases h : dirPath ≠ [] ∧ dirPath.getLast? ≠ some '/'
  · rw [if_pos h]
    exact ⟨'/' :: name, rfl⟩
  · rw [if_neg h]
    exact ⟨name, rfl⟩

mutual

/-- Every path emitted by the walk of a subtree extends the subtree's root
path. -/
theorem walkNode_rooted (cfg : Cfg) (p : CStr) (t : FSNode) (q : CStr)
    (h : q ∈ walkNode p t cfg) : p <+: q := by
  rw [walkNode_unfold] at h
  rcases List.mem_append.mp h with h1 | h2
  · cases hm : process_entry_p3 cfg t with
    | false =>
      rw [hm] at h1
      simp at h1
    | true =>
      rw [hm] at h1
      simp at h1
      subst h1
      exact ⟨[], by simp⟩
  · cases t with
    | dir b cs =>
      cases b with
      | true => exact walkEntries_rooted cfg p cs q h2
      | false => simp at h2
    | file => simp at h2
    | symlink => simp at h2
    | other => simp at h2
    | statFail => simp at h2

/-- Child-list version of `walkNode_rooted`. -/
theorem walkEntries_rooted (cfg : Cfg) (p : CStr) (es : FSEntries) (q : CStr)
    (h : q ∈ walkEntries p es cfg) : p <+: q := by
  cases es with
  | nil => simp [walkEntries] at h
  | cons name child rest =>
    rw [walkEntries] at h
    rcases List.mem_append.mp h with h1 | h2
    · exact (joinP3_ext p name).trans (walkNode_rooted cfg (joinP3 p name) child q h1)
    · exact walkEntries_rooted cfg p rest q h2

end

/-- C9: child paths are built by joining the current path and the child name
with exactly one separator, never duplicated or omitted (part_003,
walk_directory_contents lines 367-381: the '/' is inserted exactly when the
directory path does not already end in one); consequently every emitted path
is textually rooted at the caller-supplied start path (the start path is a
prefix of every emitted path), and no emitted path begins with '/' unless
the non-empty start path itself begins with '/' (an empty start path cannot
occur: lstat of the empty string fails before any emission). -/
theorem C9_paths_rooted_at_start (cfg : Cfg) :
    (∀ dirPath name : CStr, dirPath ≠ [] →
      ∃ d, joinP3 dirPath name = d ++ '/' :: name ∧
        (dirPath = d ∨ dirPath = d ++ ['/'])) ∧
    (∀ (p : CStr) (t : FSNode) (q : CStr), q ∈ walkNode p t cfg → p <+: q) ∧
    (∀ (p : CStr) (t : FSNode) (q : CStr), p ≠ [] → q ∈ walkNode p t cfg →
      ∀ rest : CStr, q = '/' :: rest → ∃ prest : CStr, p = '/' :: prest) := by
  refine ⟨fun d n h => joinP3_one_separator d n h,
    fun p t q h => walkNode_rooted cfg p t q h, ?_⟩
  intro p t q hp hq rest hrest
  obtain ⟨suf, hsuf⟩ := walkNode_rooted cfg p t q hq
  cases p with
  | nil => exact absurd rfl hp
  | cons pc ptl =>
    refine ⟨ptl, ?_⟩
    have hh : some pc = some '/' := by
      have hcong := congrArg List.head? hsuf
      rw [hrest] at hcong
      simpa using hcong
    rw [Option.some.inj hh]

/-- C9 witness: the join decomposition, rootedness and non-absoluteness
statements instantiated at concrete inputs, hypotheses discharged. -/
theorem C9_witness :
    (∃ d, joinP3 ['a'] ['b'] = d ++ '/' :: ['b'] ∧
      (['a'] = d ∨ ['a'] = d ++ ['/'])) ∧
    (['a'] <+: ['a']) ∧
    (∃ prest : CStr, ['/'] = '/' :: prest) := by
  have hmemA : (['a'] : CStr) ∈ walkNode ['a'] FSNode.file ⟨true, true, true, false⟩ := by
    rw [walkNode_unfold]
    decide
  have hmemS : (['/'] : CStr) ∈ walkNode ['/'] FSNode.file ⟨true, true, true, false⟩ := by
    rw [walkNode_unfold]
    decide
  exact ⟨(C9_paths_rooted_at_start ⟨true, true, true, false⟩).1 ['a'] ['b'] (by decide),
    (C9_paths_rooted_at_start ⟨true, true, true, false⟩).2.1 ['a'] FSNode.file ['a'] hmemA,
    (C9_paths_rooted_at_start ⟨true, true, true, false⟩).2.2 ['/'] FSNode.file ['/']
      (by decide) hmemS [] rfl⟩
